/-
Verification of the teensy-controller control loop
(src/teensy-controller/src/main.cpp).

The sketch maintains a floating-point joystick axis `joystickXFloat`
driven by encoder tick deltas, applies an exponential auto-centering
decay with a snap-to-zero deadband, maps the axis to the HID integer
range [0, 1023], and forwards debounced button edges as key events.
The floating-point state and constants are embedded as exact rationals;
the integer quantities as ℤ.
-/
import Mathlib

namespace TeensyController

/-- `const float incrementStep = 0.05;` — change per encoder tick. -/
def incrementStep : ℚ := 0.05

/-- `const float decayRate = 0.8;` — auto-centering multiplier. -/
def decayRate : ℚ := 0.8

/-- `const float zeroThreshold = 0.01;` — snap-to-zero threshold. -/
def zeroThreshold : ℚ := 0.01

/-- Arduino `constrain(amt, low, high)` on the float state:
`((amt)<(low)?(low):((amt)>(high)?(high):(amt)))`. -/
def constrain (x lo hi : ℚ) : ℚ :=
  if x < lo then lo else if hi < x then hi else x

/-- Arduino `constrain` on the mapped integer value. -/
def intConstrain (x lo hi : ℤ) : ℤ :=
  if x < lo then lo else if hi < x then hi else x

/-- Arduino `round(x)`:
`((x)>=0?(long)((x)+0.5):(long)((x)-0.5))` — add half, truncate toward
zero, i.e. round half away from zero. -/
def roundC (x : ℚ) : ℤ :=
  if 0 ≤ x then ⌊x + 1/2⌋ else ⌈x - 1/2⌉

/-- The state carried between cycles of `loop()`:
`joystickXFloat` and `lastEncoder1Position`. -/
structure ControllerState where
  joystickXFloat : ℚ
  lastEncoder1Position : ℤ
deriving DecidableEq, Repr

/-- Startup state: `joystickXFloat = 0.0`, `lastEncoder1Position = 0`. -/
def initialState : ControllerState := ⟨0, 0⟩

/-- The tick-delta update of the float state:
`joystickXFloat = constrain(joystickXFloat - delta * effectiveIncrement, -1.0, 1.0)`
where `effectiveIncrement = incrementStep`. -/
def applyTickDelta (v : ℚ) (delta : ℤ) : ℚ :=
  constrain (v - (delta : ℚ) * incrementStep) (-1) 1

/-- The encoder-reading phase of `loop()`: if the new cumulative reading
differs from `lastEncoder1Position`, compute the delta, store the new
reading, update the float state and request an output update. -/
def tickPhase (st : ControllerState) (reading : ℤ) : ControllerState × Bool :=
  if reading ≠ st.lastEncoder1Position then
    (⟨applyTickDelta st.joystickXFloat (reading - st.lastEncoder1Position),
      reading⟩, true)
  else (st, false)

/-- The auto-centering decay phase of `loop()` acting on the float state:
if nonzero, multiply by `decayRate`, snap to `0` below `zeroThreshold`,
and report whether the stored value changed. Returns the new value and
the change flag ORed into `joystickNeedsUpdate`. -/
def applyDecay (v : ℚ) : ℚ × Bool :=
  if v ≠ 0 then
    let w := v * decayRate
    let w2 := if |w| < zeroThreshold then 0 else w
    (w2, if w2 = v then false else true)
  else (v, false)

/-- The value produced by one decay phase (first component of `applyDecay`). -/
def decayValue (v : ℚ) : ℚ := (applyDecay v).1

/-- The HID mapping of the float state:
`xVal = round(512.0 + joystickXFloat * 511.0)` then
`xVal = constrain(xVal, 0, 1023)`. -/
def mapAxisOutput (v : ℚ) : ℤ :=
  intConstrain (roundC (512 + v * 511)) 0 1023

/-- What one cycle of `loop()` emits: an optional HID frame `(xVal, yVal)`
(sent only when `joystickNeedsUpdate`), and the space-key down/up signals. -/
structure CycleOutput where
  frame : Option (ℤ × ℤ)
  keyDown : Bool
  keyUp : Bool
deriving DecidableEq, Repr

/-- One full iteration of `loop()`: encoder phase, decay phase,
conditional HID dispatch with fixed `yVal = 512`, and the edge-triggered
key events taken from the debounced button. -/
def loopCycle (st : ControllerState) (reading : ℤ) (falling rising : Bool) :
    ControllerState × CycleOutput :=
  let p := tickPhase st reading
  let d := applyDecay p.1.joystickXFloat
  let dirty := p.2 || d.2
  let frame := if dirty then some (mapAxisOutput d.1, 512) else none
  (⟨d.1, p.1.lastEncoder1Position⟩, ⟨frame, falling, rising⟩)

/-- A mutation of the axis value: either a tick-delta update or a decay step. -/
inductive AxisOp where
  | tick (delta : ℤ)
  | decay
deriving DecidableEq, Repr

/-- Apply one axis mutation. -/
def applyOp (v : ℚ) : AxisOp → ℚ
  | .tick d => applyTickDelta v d
  | .decay => decayValue v

/-- Apply a sequence of axis mutations in order. -/
def runOps (v : ℚ) : List AxisOp → ℚ
  | [] => v
  | op :: rest => runOps (applyOp v op) rest

/-! ### Basic lemmas about the clamping and decay primitives -/

lemma le_constrain (x lo hi : ℚ) (h : lo ≤ hi) : lo ≤ constrain x lo hi := by
  unfold constrain
  split_ifs with h1 h2
  · exact le_refl lo
  · exact h
  · exact le_of_not_lt h1

lemma constrain_le (x lo hi : ℚ) (h : lo ≤ hi) : constrain x lo hi ≤ hi := by
  unfold constrain
  split_ifs with h1 h2
  · exact h
  · exact le_refl hi
  · exact le_of_not_lt h2

lemma constrain_of_mem (x lo hi : ℚ) (h1 : lo ≤ x) (h2 : x ≤ hi) :
    constrain x lo hi = x := by
  unfold constrain
  split_ifs with ha hb
  · linarith
  · linarith
  · rfl

lemma decayValue_zero : decayValue 0 = 0 := by
  simp [decayValue, applyDecay]

lemma decayValue_of_small (v : ℚ) (hv : v ≠ 0) (h : |v * decayRate| < zeroThreshold) :
    decayValue v = 0 := by
  simp only [decayValue, applyDecay, if_pos hv, if_pos h]

lemma decayValue_of_large (v : ℚ) (hv : v ≠ 0) (h : ¬ |v * decayRate| < zeroThreshold) :
    decayValue v = v * decayRate := by
  simp only [decayValue, applyDecay, if_pos hv, if_neg h]

lemma decayValue_cases (v : ℚ) :
    decayValue v = 0 ∨ (decayValue v = v * decayRate ∧ zeroThreshold ≤ |v * decayRate|) := by
  by_cases hv : v = 0
  · subst hv; exact Or.inl decayValue_zero
  · by_cases h : |v * decayRate| < zeroThreshold
    · exact Or.inl (decayValue_of_small v hv h)
    · exact Or.inr ⟨decayValue_of_large v hv h, le_of_not_lt h⟩

lemma decayValue_zero_or_threshold (v : ℚ) :
    decayValue v = 0 ∨ zeroThreshold ≤ |decayValue v| := by
  rcases decayValue_cases v with h | ⟨h1, h2⟩
  · exact Or.inl h
  · exact Or.inr (h1 ▸ h2)

/-! ### C3 — the decay step -/

/-- C3: the decay step multiplies a nonzero axis value by `decayRate` and
snaps to exactly `0` below `zeroThreshold`; it reports a change iff the
value was nonzero before the call and the stored value differs afterwards;
a zero value is untouched and unreported. -/
theorem decay_step_spec (v : ℚ) :
    (decayValue v =
      if v = 0 then v
      else if |v * decayRate| < zeroThreshold then 0 else v * decayRate)
    ∧ ((applyDecay v).2 = true ↔ v ≠ 0 ∧ decayValue v ≠ v) := by
  constructor
  · by_cases hv : v = 0
    · simp [hv, decayValue_zero]
    · by_cases h : |v * decayRate| < zeroThreshold
      · simp [hv, h, decayValue_of_small v hv h]
      · simp [hv, h, decayValue_of_large v hv h]
  · by_cases hv : v = 0
    · simp [hv, applyDecay]
    · simp only [applyDecay, if_pos hv, decayValue, ne_eq]
      split_ifs with h <;> simp_all

/-! ### C2 — the tick-delta update -/

/-- C2: with a nonzero delta `d` (a cumulative reading that moved), the
tick phase stores the new reading, sets the axis to
`constrain (v - d * incrementStep) (-1) 1`, and reports a change; from
rest (`v = 0`) the result is `constrain (-(d * incrementStep)) (-1) 1`. -/
theorem tick_update_spec (v : ℚ) (hv : -1 ≤ v ∧ v ≤ 1) (last d : ℤ) (hd : d ≠ 0) :
    tickPhase ⟨v, last⟩ (last + d)
      = (⟨constrain (v - (d : ℚ) * incrementStep) (-1) 1, last + d⟩, true)
    ∧ tickPhase ⟨0, last⟩ (last + d)
      = (⟨constrain (-((d : ℚ) * incrementStep)) (-1) 1, last + d⟩, true) := by
  have hne : last + d ≠ last := by omega
  have hdelta : (last + d) - last = d := by omega
  constructor
  · simp only [tickPhase, if_pos hne, applyTickDelta, hdelta]
  · simp only [tickPhase, if_pos hne, applyTickDelta, hdelta, zero_sub]

/-- Witness for C2 at `v = 0`, `last = 0`, `d = 1`. -/
theorem tick_update_spec_witness :
    ((-1 ≤ (0 : ℚ) ∧ (0 : ℚ) ≤ 1) ∧ (1 : ℤ) ≠ 0)
    ∧ (tickPhase ⟨0, 0⟩ ((0 : ℤ) + 1)
        = (⟨constrain (0 - ((1 : ℤ) : ℚ) * incrementStep) (-1) 1, (0 : ℤ) + 1⟩, true)
      ∧ tickPhase ⟨0, 0⟩ ((0 : ℤ) + 1)
        = (⟨constrain (-(((1 : ℤ) : ℚ) * incrementStep)) (-1) 1, (0 : ℤ) + 1⟩, true)) :=
  ⟨⟨⟨by norm_num, by norm_num⟩, by norm_num⟩,
    tick_update_spec 0 ⟨by norm_num, by norm_num⟩ 0 1 (by norm_num)⟩

/-! ### C7 — an idle cycle dispatches nothing -/

/-- C7: if the cumulative reading has not moved and the axis value is
already exactly `0`, the cycle dispatches no frame and leaves both the
axis value and the stored last reading unchanged. -/
theorem idle_cycle_no_frame (st : ControllerState) (f r : Bool)
    (h : st.joystickXFloat = 0) :
    (loopCycle st st.lastEncoder1Position f r).1 = st
    ∧ (loopCycle st st.lastEncoder1Position f r).2.frame = none := by
  have htick : tickPhase st st.lastEncoder1Position = (st, false) := by
    simp [tickPhase]
  constructor
  · obtain ⟨x, l⟩ := st
    simp only at h
    subst h
    simp only [loopCycle, htick]
    simp [applyDecay]
  · simp only [loopCycle, htick, h]
    simp [applyDecay]

/-- Witness for C7 at the state `⟨0, 7⟩`. -/
theorem idle_cycle_no_frame_witness :
    (ControllerState.joystickXFloat ⟨0, 7⟩ = 0)
    ∧ ((loopCycle ⟨0, 7⟩ (ControllerState.lastEncoder1Position ⟨0, 7⟩) false false).1
        = (⟨0, 7⟩ : ControllerState)
      ∧ (loopCycle ⟨0, 7⟩ (ControllerState.lastEncoder1Position ⟨0, 7⟩) false false).2.frame
        = none) :=
  ⟨rfl, idle_cycle_no_frame ⟨0, 7⟩ false false rfl⟩

/-! ### C8 — end-to-end scenario -/

/-- C8: from rest, a tick delta of `-2` produces `0.10`; one decay step
takes `0.10` to `0.08`; the HID mapping of `0.08` is `553`. -/
theorem end_to_end_scenario :
    tickPhase initialState (-2) = (⟨0.10, -2⟩, true)
    ∧ decayValue 0.10 = 0.08
    ∧ mapAxisOutput 0.08 = 553 := by
  refine ⟨?_, ?_, ?_⟩
  · norm_num [tickPhase, initialState, applyTickDelta, constrain, incrementStep]
  · norm_num [decayValue, applyDecay, decayRate, zeroThreshold, abs_of_nonneg]
  · norm_num [mapAxisOutput, intConstrain, roundC]

/-! ### C10 — the post-decay deadband invariant -/

/-- C10: after the decay phase of any cycle the stored axis value is
either exactly `0` or at least `zeroThreshold` in magnitude, and any
frame the cycle dispatches carries the mapping of that same value. -/
theorem post_decay_deadband (st : ControllerState) (reading : ℤ) (f r : Bool) :
    ((loopCycle st reading f r).1.joystickXFloat = 0
      ∨ zeroThreshold ≤ |(loopCycle st reading f r).1.joystickXFloat|)
    ∧ ((loopCycle st reading f r).2.frame = none
      ∨ (loopCycle st reading f r).2.frame
          = some (mapAxisOutput (loopCycle st reading f r).1.joystickXFloat, 512)) := by
  constructor
  · simpa only [loopCycle] using
      decayValue_zero_or_threshold (tickPhase st reading).1.joystickXFloat
  · simp only [loopCycle, decayValue]
    split_ifs with h
    · exact Or.inr rfl
    · exact Or.inl rfl

/-! ### C1 — the axis range invariant -/

lemma applyTickDelta_mem (v : ℚ) (d : ℤ) :
    -1 ≤ applyTickDelta v d ∧ applyTickDelta v d ≤ 1 :=
  ⟨le_constrain _ _ _ (by norm_num), constrain_le _ _ _ (by norm_num)⟩

lemma decayValue_mem (v : ℚ) (h1 : -1 ≤ v) (h2 : v ≤ 1) :
    -1 ≤ decayValue v ∧ decayValue v ≤ 1 := by
  rcases decayValue_cases v with h | ⟨h, _⟩
  · rw [h]; norm_num
  · rw [h, decayRate]
    constructor <;> nlinarith

lemma runOps_mem (ops : List AxisOp) :
    ∀ v : ℚ, -1 ≤ v → v ≤ 1 → -1 ≤ runOps v ops ∧ runOps v ops ≤ 1 := by
  induction ops with
  | nil => exact fun v h1 h2 => ⟨h1, h2⟩
  | cons op rest ih =>
    intro v h1 h2
    cases op with
    | tick d =>
      exact ih _ (applyTickDelta_mem v d).1 (applyTickDelta_mem v d).2
    | decay =>
      exact ih _ (decayValue_mem v h1 h2).1 (decayValue_mem v h1 h2).2

/-- C1: starting from the initial axis value `0`, every sequence of
tick-delta updates and decay steps leaves the axis value in `[-1, 1]`;
since this holds for every sequence, it holds after every mutation. -/
theorem axis_range_invariant (ops : List AxisOp) :
    -1 ≤ runOps 0 ops ∧ runOps 0 ops ≤ 1 :=
  runOps_mem ops 0 (by norm_num) (by norm_num)

/-! ### C4 — the HID output mapping -/

/-- C4: any frame a cycle dispatches carries
`X = constrain (round (512 + v * 511)) 0 1023`, where `v` is the axis
value stored by that cycle, and `Y = 512`; moreover `v = 0`, `1`, `-1`
map to `512`, `1023`, `1` respectively. -/
theorem output_mapping_spec (st : ControllerState) (reading : ℤ) (f r : Bool)
    (x y : ℤ) (h : (loopCycle st reading f r).2.frame = some (x, y)) :
    (x = intConstrain (roundC (512 + (loopCycle st reading f r).1.joystickXFloat * 511)) 0 1023
      ∧ y = 512)
    ∧ mapAxisOutput 0 = 512 ∧ mapAxisOutput 1 = 1023 ∧ mapAxisOutput (-1) = 1 := by
  refine ⟨?_, ?_, ?_, ?_⟩
  · simp only [loopCycle, mapAxisOutput] at h ⊢
    split_ifs at h with hd
    simp only [Option.some.injEq, Prod.mk.injEq] at h
    exact ⟨h.1.symm, h.2.symm⟩
  · norm_num [mapAxisOutput, intConstrain, roundC]
  · norm_num [mapAxisOutput, intConstrain, roundC]
  · norm_num [mapAxisOutput, intConstrain, roundC]

/-- Witness for C4: one cycle from the state `⟨1/2, 0⟩` with no encoder
motion decays the axis to `2/5` and dispatches the frame `(716, 512)`. -/
theorem output_mapping_spec_witness :
    ((loopCycle ⟨1/2, 0⟩ 0 false false).2.frame = some (716, 512))
    ∧ (((716 : ℤ) = intConstrain
          (roundC (512 + (loopCycle ⟨1/2, 0⟩ 0 false false).1.joystickXFloat * 511)) 0 1023
        ∧ (512 : ℤ) = 512)
      ∧ mapAxisOutput 0 = 512 ∧ mapAxisOutput 1 = 1023 ∧ mapAxisOutput (-1) = 1) := by
  have h : (loopCycle ⟨1/2, 0⟩ 0 false false).2.frame = some (716, 512) := by
    norm_num [loopCycle, tickPhase, applyDecay, decayRate, zeroThreshold,
      mapAxisOutput, intConstrain, roundC, abs_of_nonneg]
  exact ⟨h, output_mapping_spec ⟨1/2, 0⟩ 0 false false 716 512 h⟩

/-! ### C9 — the output clamp is unreachable -/

/-- C9: for an axis value in `[-1, 1]` the rounded mapping already lies
in `[1, 1023]`, so the final clamp to `[0, 1023]` never alters it and
the sink value `0` is never emitted. -/
theorem output_clamp_unreachable (v : ℚ) (h1 : -1 ≤ v) (h2 : v ≤ 1) :
    (1 ≤ roundC (512 + v * 511) ∧ roundC (512 + v * 511) ≤ 1023)
    ∧ intConstrain (roundC (512 + v * 511)) 0 1023 = roundC (512 + v * 511)
    ∧ mapAxisOutput v ≠ 0 := by
  have hlo : (1 : ℚ) ≤ 512 + v * 511 := by nlinarith
  have hhi : 512 + v * 511 ≤ 1023 := by nlinarith
  have hpos : (0 : ℚ) ≤ 512 + v * 511 := by linarith
  have hr : roundC (512 + v * 511) = ⌊512 + v * 511 + 1/2⌋ := by
    simp [roundC, hpos]
  have hr1 : 1 ≤ roundC (512 + v * 511) := by
    rw [hr]
    exact Int.le_floor.mpr (by push_cast; linarith)
  have hr2 : roundC (512 + v * 511) ≤ 1023 := by
    rw [hr]
    have := Int.floor_le_floor (α := ℚ) (show 512 + v * 511 + 1/2 ≤ 2047/2 by linarith)
    simpa using this.trans_eq (by norm_num)
  have hc : intConstrain (roundC (512 + v * 511)) 0 1023 = roundC (512 + v * 511) := by
    unfold intConstrain
    rw [if_neg (by omega), if_neg (by omega)]
  refine ⟨⟨hr1, hr2⟩, hc, ?_⟩
  rw [mapAxisOutput, hc]
  omega

/-- Witness for C9 at `v = 1/2`. -/
theorem output_clamp_unreachable_witness :
    (-1 ≤ (1/2 : ℚ) ∧ (1/2 : ℚ) ≤ 1)
    ∧ ((1 ≤ roundC (512 + (1/2 : ℚ) * 511) ∧ roundC (512 + (1/2 : ℚ) * 511) ≤ 1023)
      ∧ intConstrain (roundC (512 + (1/2 : ℚ) * 511)) 0 1023 = roundC (512 + (1/2 : ℚ) * 511)
      ∧ mapAxisOutput (1/2) ≠ 0) :=
  ⟨⟨by norm_num, by norm_num⟩,
    output_clamp_unreachable (1/2) (by norm_num) (by norm_num)⟩

/-! ### C6 — edge-triggered key events

The debounced Switch Source (the Bounce library) is external to this
repository; per the interface contract, `fallingEdge()` / `risingEdge()`
are each true for exactly one query following the corresponding debounced
transition. We model it by a trace of debounced pressed-levels
(`true` = pressed, i.e. electrical LOW under the pull-up) and derive the
edges as level changes from the previous cycle. -/

/-- Modelled from the spec: `fallingEdge()` of the debounced Switch
Source — true exactly when the debounced level transitions to pressed. -/
def edgeFalling (prev cur : Bool) : Bool := !prev && cur

/-- Modelled from the spec: `risingEdge()` of the debounced Switch
Source — true exactly when the debounced level transitions to released. -/
def edgeRising (prev cur : Bool) : Bool := prev && !cur

/-- The edge pair `(falling, rising)` for each cycle of a level trace. -/
def edgePairs (prev : Bool) : List Bool → List (Bool × Bool)
  | [] => []
  | c :: rest => (edgeFalling prev c, edgeRising prev c) :: edgePairs c rest

/-- The `(keyDown, keyUp)` signals emitted by running `loop()` over a
trace of debounced levels, with no encoder motion, threading the
controller state through the cycles. -/
def keyTrace (st : ControllerState) (prev : Bool) : List Bool → List (Bool × Bool)
  | [] => []
  | c :: rest =>
    let step := loopCycle st st.lastEncoder1Position (edgeFalling prev c) (edgeRising prev c)
    (step.2.keyDown, step.2.keyUp) :: keyTrace step.1 c rest

lemma loopCycle_keyDown (st : ControllerState) (reading : ℤ) (f r : Bool) :
    (loopCycle st reading f r).2.keyDown = f := rfl

lemma loopCycle_keyUp (st : ControllerState) (reading : ℤ) (f r : Bool) :
    (loopCycle st reading f r).2.keyUp = r := rfl

lemma keyTrace_eq_edgePairs (levels : List Bool) :
    ∀ (st : ControllerState) (prev : Bool), keyTrace st prev levels = edgePairs prev levels := by
  induction levels with
  | nil => intro st prev; rfl
  | cons c rest ih =>
    intro st prev
    simp only [keyTrace, edgePairs, loopCycle_keyDown, loopCycle_keyUp, ih]

lemma edgePairs_replicate_false (n : ℕ) :
    edgePairs false (List.replicate n false) = List.replicate n (false, false) := by
  induction n with
  | zero => rfl
  | succ m ih => simp only [List.replicate_succ, edgePairs, ih]; rfl

lemma edgePairs_replicate_true (n : ℕ) :
    edgePairs true (List.replicate n true) = List.replicate n (false, false) := by
  induction n with
  | zero => rfl
  | succ m ih => simp only [List.replicate_succ, edgePairs, ih]; rfl

lemma edgePairs_append (xs : List Bool) :
    ∀ (p : Bool) (ys : List Bool),
      edgePairs p (xs ++ ys) = edgePairs p xs ++ edgePairs (xs.getLastD p) ys := by
  induction xs with
  | nil => intro p ys; rfl
  | cons c rest ih =>
    intro p ys
    simp only [List.cons_append, edgePairs, List.getLastD_cons]
    exact congrArg _ (ih c ys)

lemma getLastD_replicate (n : ℕ) (x d : Bool) :
    (List.replicate n x).getLastD d = if n = 0 then d else x := by
  cases n with
  | zero => rfl
  | succ m =>
    induction m with
    | zero => rfl
    | succ k ihk =>
      simp only [List.replicate_succ, List.getLastD_cons] at ihk ⊢
      simpa using ihk

/-- C6: over any debounced press-then-release level trace — `a` cycles
released, then `b + 1` cycles held, then `c + 1` cycles released — the
loop emits exactly one key-down, on the cycle the level becomes pressed,
and later exactly one key-up, on the cycle it becomes released, and no
other key signal in any other cycle. -/
theorem press_release_single_events (a b c : ℕ) (st : ControllerState) :
    keyTrace st false
        (List.replicate a false ++ List.replicate (b + 1) true ++ List.replicate (c + 1) false)
      = List.replicate a (false, false)
        ++ ((true, false) :: List.replicate b (false, false))
        ++ ((false, true) :: List.replicate c (false, false)) := by
  rw [keyTrace_eq_edgePairs, List.append_assoc]
  have hl1 : (List.replicate a false).getLastD false = false := by
    rw [getLastD_replicate]; exact ite_self false
  have hl2 : (List.replicate (b + 1) true).getLastD false = true := by
    rw [getLastD_replicate]; simp
  have h2 : edgePairs false (List.replicate (b + 1) true)
      = (true, false) :: List.replicate b (false, false) := by
    rw [List.replicate_succ]
    show (edgeFalling false true, edgeRising false true) :: _ = _
    rw [edgePairs_replicate_true]
    rfl
  have h3 : edgePairs true (List.replicate (c + 1) false)
      = (false, true) :: List.replicate c (false, false) := by
    rw [List.replicate_succ]
    show (edgeFalling true false, edgeRising true false) :: _ = _
    rw [edgePairs_replicate_false]
    rfl
  rw [edgePairs_append, hl1, edgePairs_replicate_false,
    edgePairs_append, hl2, h2, h3, List.append_assoc]

/-! ### C5 — convergence of repeated decay

The spec bounds the number of decay calls needed to reach exactly `0`
by `⌈log (zeroThreshold / |start|) / log decayRate⌉`. That expression
is too small: for `|start| < zeroThreshold · decayRate` it is
nonpositive although the start value is still nonzero, and when the
quotient is an exact integer the final value sits exactly on the
threshold, which does not snap. One extra call (and at least one call)
always suffices. -/

lemma decayRate_pos : (0 : ℚ) < decayRate := by norm_num [decayRate]

lemma decay_iterate_cases (s : ℚ) (hs : s ≠ 0) :
    ∀ k : ℕ, decayValue^[k] s = 0
      ∨ (decayValue^[k] s = s * decayRate ^ k
          ∧ (k = 0 ∨ zeroThreshold ≤ |s * decayRate ^ k|)) := by
  intro k
  induction k with
  | zero => exact Or.inr ⟨by simp, Or.inl rfl⟩
  | succ k ih =>
    rw [Function.iterate_succ_apply']
    rcases ih with h0 | ⟨heq, _⟩
    · rw [h0, decayValue_zero]
      exact Or.inl rfl
    · have hu : s * decayRate ^ k ≠ 0 :=
        mul_ne_zero hs (pow_ne_zero k (ne_of_gt decayRate_pos))
      rw [heq]
      by_cases habs : |s * decayRate ^ k * decayRate| < zeroThreshold
      · rw [decayValue_of_small _ hu habs]
        exact Or.inl rfl
      · rw [decayValue_of_large _ hu habs]
        refine Or.inr ⟨by ring, Or.inr ?_⟩
        calc zeroThreshold ≤ |s * decayRate ^ k * decayRate| := le_of_not_lt habs
          _ = |s * decayRate ^ (k + 1)| := by ring_nf

lemma decay_reaches_zero (s : ℚ) (hs : s ≠ 0) (N : ℕ) (hN : 1 ≤ N)
    (h : |s| * decayRate ^ N < zeroThreshold) : decayValue^[N] s = 0 := by
  rcases decay_iterate_cases s hs N with h0 | ⟨_, hthr⟩
  · exact h0
  · rcases hthr with h00 | hge
    · omega
    · exfalso
      rw [abs_mul, abs_of_pos (pow_pos decayRate_pos N)] at hge
      linarith

lemma decay_bound_lt (s : ℚ) (hs : s ≠ 0) :
    |s| * decayRate ^ (max 1 (⌈Real.log ((0.01 : ℝ) / |(s : ℝ)|) / Real.log 0.8⌉ + 1).toNat)
      < zeroThreshold := by
  have hsR : (0 : ℝ) < |(s : ℝ)| := abs_pos.mpr (by exact_mod_cast hs)
  set q : ℝ := Real.log ((0.01 : ℝ) / |(s : ℝ)|) / Real.log 0.8 with hqdef
  set N : ℕ := max 1 (⌈q⌉ + 1).toNat with hNdef
  have hlog08 : Real.log (0.8 : ℝ) < 0 := Real.log_neg (by norm_num) (by norm_num)
  have hqN : q < (N : ℝ) := by
    have h1 : (⌈q⌉ + 1 : ℤ) ≤ ((⌈q⌉ + 1).toNat : ℤ) := Int.self_le_toNat _
    have h2 : ((⌈q⌉ + 1).toNat : ℕ) ≤ N := le_max_right _ _
    have h3 : q ≤ (⌈q⌉ : ℝ) := Int.le_ceil q
    have h4 : ((⌈q⌉ : ℝ) + 1) ≤ (N : ℝ) := by
      calc ((⌈q⌉ : ℝ) + 1) = ((⌈q⌉ + 1 : ℤ) : ℝ) := by push_cast; ring
        _ ≤ (((⌈q⌉ + 1).toNat : ℤ) : ℝ) := by exact_mod_cast h1
        _ ≤ (N : ℝ) := by exact_mod_cast h2
    linarith
  have hargpos : (0 : ℝ) < (0.01 : ℝ) / |(s : ℝ)| := by positivity
  have hlt : (0.8 : ℝ) ^ N < (0.01 : ℝ) / |(s : ℝ)| := by
    have hmul : (N : ℝ) * Real.log 0.8 < q * Real.log 0.8 :=
      mul_lt_mul_of_neg_right hqN hlog08
    have hql : q * Real.log 0.8 = Real.log ((0.01 : ℝ) / |(s : ℝ)|) := by
      rw [hqdef]
      field_simp
    rw [hql, ← Real.log_pow] at hmul
    exact (Real.log_lt_log_iff (pow_pos (by norm_num) N) hargpos).mp hmul
  have hR : |(s : ℝ)| * (0.8 : ℝ) ^ N < (0.01 : ℝ) := by
    rw [lt_div_iff₀ hsR] at hlt
    linarith
  have hcast : ((|s| * decayRate ^ N : ℚ) : ℝ) < (((0.01 : ℚ)) : ℝ) := by
    push_cast
    calc |(s : ℝ)| * ((decayRate : ℚ) : ℝ) ^ N = |(s : ℝ)| * (0.8 : ℝ) ^ N := by
          norm_num [decayRate]
      _ < (0.01 : ℝ) := hR
      _ = (((0.01 : ℚ)) : ℝ) := by norm_num
  have hq : |s| * decayRate ^ N < (0.01 : ℚ) := by exact_mod_cast hcast
  simpa [zeroThreshold] using hq

/-- Counterexample to C5 as stated: at a start value of `1/200` the
claimed call-count bound `⌈log (0.01 / |s|) / log 0.8⌉` is nonpositive
(it truncates to zero iterations), yet the axis value is still nonzero. -/
theorem decay_bound_counterexample :
    ¬ decayValue^[(⌈Real.log ((0.01 : ℝ) / |((1/200 : ℚ) : ℝ)|) / Real.log 0.8⌉).toNat]
        ((1/200 : ℚ)) = 0 := by
  have harg : (0.01 : ℝ) / |((1/200 : ℚ) : ℝ)| = 2 := by
    rw [show ((1/200 : ℚ) : ℝ) = 1/200 by norm_num, abs_of_nonneg (by norm_num)]
    norm_num
  have hq : Real.log ((0.01 : ℝ) / |((1/200 : ℚ) : ℝ)|) / Real.log 0.8 ≤ 0 := by
    rw [harg]
    exact div_nonpos_of_nonneg_of_nonpos (Real.log_pos (by norm_num)).le
      (Real.log_neg (by norm_num) (by norm_num)).le
  have hceil : ⌈Real.log ((0.01 : ℝ) / |((1/200 : ℚ) : ℝ)|) / Real.log 0.8⌉ ≤ 0 :=
    Int.ceil_le.mpr (by exact_mod_cast hq)
  rw [Int.toNat_of_nonpos hceil]
  norm_num

/-- C5 (amended): from any nonzero start `s` in `[-1, 1]`, iterated
decay reaches exactly `0` within
`max 1 (⌈log (0.01 / |s|) / log 0.8⌉ + 1)` calls — one call more than
the spec's bound, and at least one call — and the value never
overshoots past zero: every iterate keeps the sign of `s` or is `0`. -/
theorem decay_convergence (s : ℚ) (hs : s ≠ 0) (hb : |s| ≤ 1) :
    decayValue^[max 1 (⌈Real.log ((0.01 : ℝ) / |(s : ℝ)|) / Real.log 0.8⌉ + 1).toNat] s = 0
    ∧ ∀ k : ℕ, (0 < s → 0 ≤ decayValue^[k] s) ∧ (s < 0 → decayValue^[k] s ≤ 0) := by
  constructor
  · exact decay_reaches_zero s hs _ (le_max_left _ _) (decay_bound_lt s hs)
  · intro k
    rcases decay_iterate_cases s hs k with h0 | ⟨heq, _⟩
    · rw [h0]
      exact ⟨fun _ => le_refl 0, fun _ => le_refl 0⟩
    · rw [heq]
      have hp : (0 : ℚ) ≤ decayRate ^ k := pow_nonneg decayRate_pos.le k
      exact ⟨fun hpos => mul_nonneg hpos.le hp,
        fun hneg => mul_nonpos_of_nonpos_of_nonneg hneg.le hp⟩

/-- Witness for the amended C5 at `s = 1/2`. -/
theorem decay_convergence_witness :
    ((1/2 : ℚ) ≠ 0 ∧ |(1/2 : ℚ)| ≤ 1)
    ∧ (decayValue^[max 1
          (⌈Real.log ((0.01 : ℝ) / |((1/2 : ℚ) : ℝ)|) / Real.log 0.8⌉ + 1).toNat]
          ((1/2 : ℚ)) = 0
      ∧ ∀ k : ℕ, (0 < (1/2 : ℚ) → 0 ≤ decayValue^[k] ((1/2 : ℚ)))
          ∧ ((1/2 : ℚ) < 0 → decayValue^[k] ((1/2 : ℚ)) ≤ 0)) :=
  ⟨⟨by norm_num, by rw [abs_of_nonneg] <;> norm_num⟩,
    decay_convergence (1/2) (by norm_num) (by rw [abs_of_nonneg] <;> norm_num)⟩

end TeensyController
